import Mathlib

/-
Verification of the CLIPPER 2.0 statistical significance engine and
exopeptidase ragged-terminus detector (src/clipper/clipper.py).

The annotation table is modelled column-wise as an association list from
column names to column values.  Numeric cells are rationals; NaN is an
explicit cell.  Columns whose values come from external numeric libraries
(row-wise means, standard deviations, log transforms, p-values from
scipy and statsmodels) are kept symbolic: a constructor records exactly
which inputs the library call receives, since none of the verified
properties depend on the transcendental values themselves.
-/

namespace Clipper

/-- A single cell of the annotation table: a rational number, a string, or a
missing value (np.nan). -/
inductive Cell where
  | num (q : ℚ)
  | str (s : String)
  | nan
deriving DecidableEq, Repr

/-- A column value.  Literal columns hold materialized cells.  The remaining
constructors symbolically record columns produced by numeric library calls:
rowwise mean, standard deviation and coefficient of variation over selected
quant columns, fold change between two channel selections, elementwise log2
and log10, and the p-value output of a statistical test applied to two
channel-column selections. -/
inductive ColV where
  | lit (cells : List Cell)
  | meanC (src : List String)
  | stdC (src : List String)
  | cvC (src : List String)
  | foldC (src0 src1 : List String)
  | log2C (c : ColV)
  | log10C (c : ColV)
  | pvalsC (test : String) (src0 src1 : List String)
deriving DecidableEq, Repr

deriving instance DecidableEq for Except

/-- The annotation table: ordered list of named columns. -/
abbrev Table := List (String × ColV)

/-- Lookup of a column by name (first occurrence), as in df[name]. -/
def getCol : Table → String → Option ColV
  | [], _ => none
  | (n, c) :: t, name => if n = name then some c else getCol t name

/-- Column assignment df[name] = col: overwrite the first column with that
name in place, else append the new column at the end (pandas semantics). -/
def assignCol : Table → String → ColV → Table
  | [], name, c => [(name, c)]
  | (n, c0) :: t, name, c =>
      if n = name then (n, c) :: t else (n, c0) :: assignCol t name c

/-- Position of a named column, as in df.columns.get_loc(name). -/
def findColIdx : Table → String → Option Nat
  | [], _ => none
  | (n, _) :: t, name =>
      if n = name then some 0 else (findColIdx t name).map (· + 1)

/-- DataFrame.insert(loc, name, col): refuses duplicate column names and
out-of-range positions, otherwise places the new column at position loc. -/
def insertAt (t : Table) (loc : Nat) (name : String) (c : ColV) :
    Except String Table :=
  if name ∈ t.map Prod.fst then
    .error ("ValueError: cannot insert " ++ name ++ ", already exists")
  else if t.length < loc then
    .error "IndexError: column insertion position out of bounds"
  else
    .ok (t.take loc ++ (name, c) :: t.drop loc)

/-- Number of rows of the table, read off a materialized leading column. -/
def colHeight : ColV → Nat
  | .lit cells => cells.length
  | .log2C c => colHeight c
  | .log10C c => colHeight c
  | _ => 0

/-- Height of the annotation table (its row count). -/
def tableHeight : Table → Nat
  | [] => 0
  | (_, c) :: _ => colHeight c

/-- Boolean test that one character list starts with another. -/
def isPrefixCB : List Char → List Char → Bool
  | [], _ => true
  | _ :: _, [] => false
  | a :: as, b :: bs => a == b && isPrefixCB as bs

/-- Helper for substring search over character lists. -/
def containsSubAux (needle : List Char) : List Char → Bool
  | [] => needle.isEmpty
  | c :: rest => isPrefixCB needle (c :: rest) || containsSubAux needle rest

/-- Substring test modelling pandas str.contains with a literal pattern. -/
def containsSub (hay needle : String) : Bool :=
  containsSubAux needle.data hay.data

/-- Channel-column selection for a condition:
df.columns[df.columns.str.contains("|".join(channels)) and
df.columns.str.contains(quant_pattern)].  The regex alternation of literal
channel tokens is modelled as: some channel token occurs as a substring. -/
def selectCols (dfCols : List String) (channels : List String) (quant : String) :
    List String :=
  dfCols.filter (fun c => channels.any (fun ch => containsSub c ch) && containsSub c quant)

/-- Code-point level drop of the first n characters of a string, the meaning
of the Python slices s[1:], s[2:] and s[-5:] used by the detector. -/
def strDrop (s : String) (n : Nat) : String := String.mk (s.data.drop n)

/-- Code-point level str.endswith. -/
def endsWithB (s suf : String) : Bool :=
  isPrefixCB suf.data.reverse s.data.reverse

/-- Stable insertion used by the descending length sort: the new element is
placed after every already-placed element of length at least its own.  This
models the stable mergesort of
sort_values(key=len, kind="mergesort", ascending=False): ties keep their
original relative order. -/
def insertDescLen (l : List String) (x : String) : List String :=
  match l with
  | [] => [x]
  | y :: ys => if y.length < x.length then x :: y :: ys else y :: insertDescLen ys x

/-- Stable sort of the sequence list by descending length. -/
def sortDescLen (l : List String) : List String :=
  l.foldl insertDescLen []

/-- State of the inner candidate scan of Clipper.exopeptidase: the cleared
set, the per-row label column, the cursor sequence (compare), the tracked
length lpep and the dipeptidase-seed flag rag_flag. -/
structure ScanState where
  cleared : List String
  labels : List (Option String)
  compare : String
  lpep : Nat
  rag : Bool
deriving DecidableEq, Repr

/-- Write a label into every table row whose sequence equals pep, mirroring
the loop over same_seq_indices. -/
def setAll (rows : List (Option String)) (labels : List (Option String))
    (pep lab : String) : List (Option String) :=
  List.zipWith (fun s l => if s = some pep then some lab else l) rows labels

/-- One candidate step of the inner scan of Clipper.exopeptidase.  A
candidate equal to the cursor minus its first residue is labelled
aminopeptidase (or dipeptidase-seed aminopeptidase when the rag flag is set
and the length matches lpep - 1); a candidate equal to the cursor minus its
first two residues is labelled dipeptidase and raises the rag flag; any
other candidate is skipped. -/
def exoStep (rows : List (Option String)) (st : ScanState) (pep : String) :
    ScanState :=
  if pep = strDrop st.compare 1 then
    if st.rag ∧ pep.length = st.lpep - 1 then
      { st with
        cleared := pep :: st.cleared
        labels := setAll rows st.labels pep "Dipeptidase_seed_Aminopeptidase_activity"
        compare := pep }
    else
      { st with
        cleared := pep :: st.cleared
        labels := setAll rows st.labels pep "Aminopeptidase_activity"
        compare := pep
        rag := false }
  else if pep = strDrop st.compare 2 then
    { st with
      cleared := pep :: st.cleared
      labels := setAll rows st.labels pep "Dipeptidase_activity"
      compare := pep
      lpep := pep.length
      rag := true }
  else st

/-- One outer-loop step of Clipper.exopeptidase for sequence seq: skip if
already cleared, otherwise clear it, collect every sequence of the sorted
list ending with its final-5-character anchor, and when more than one
matches run the inner candidate scan. -/
def exoOuter (rows : List (Option String)) (sequences : List String)
    (st : List String × List (Option String)) (seq : String) :
    List String × List (Option String) :=
  if seq ∈ st.1 then st
  else
    let cleared := seq :: st.1
    let anchor := strDrop seq (seq.length - 5)
    let matching := sequences.filter (fun p => endsWithB p anchor)
    if 1 < matching.length then
      let r := matching.foldl (exoStep rows)
        { cleared := cleared, labels := st.2, compare := seq,
          lpep := seq.length, rag := false }
      (r.cleared, r.labels)
    else (cleared, st.2)

/-- Clipper.exopeptidase: drop missing sequences, stable-sort the rest by
descending length, and scan them, producing the per-row exopeptidase label
column (initialized to all-missing). -/
def exopeptidase (rows : List (Option String)) : List (Option String) :=
  let sequences := sortDescLen (rows.filterMap id)
  (sequences.foldl (exoOuter rows sequences)
    ([], rows.map (fun _ => none))).2

/-- The condition map: an ordered association list of condition names to
channel substrings, the insertion-ordered dict parsed by
read_condition_file. -/
abbrev Conditions := List (String × List String)

/-- The fallback condition map installed by general_conditions when no
condition file was supplied. -/
def defaultConditions : Conditions :=
  [("all", ["126", "127", "128", "129", "130", "131", "132", "133", "134"])]

/-- Channel substrings of a named condition (the names passed around always
come from the map itself, so the lookup always succeeds). -/
def condLookup (conditions : Conditions) (name : String) : List String :=
  match conditions.find? (fun p => p.1 == name) with
  | some p => p.2
  | none => []

/-- Helper for itertools.permutations(keys, 2): for each remaining first
component, pair it with every distinct key of the full list, in order. -/
def permPairsAux (full : List String) : List String → List (String × String)
  | [] => []
  | a :: rest =>
      ((full.filter (fun b => b != a)).map (fun b => (a, b))) ++ permPairsAux full rest

/-- itertools.permutations(keys, 2): all ordered pairs of distinct keys. -/
def permPairs (l : List String) : List (String × String) :=
  permPairsAux l l

/-- itertools.combinations(keys, 2): all unordered pairs, by position. -/
def combPairs : List String → List (String × String)
  | [] => []
  | a :: rest => rest.map (fun b => (a, b)) ++ combPairs rest

/-- Name of the fold-change column of an ordered condition pair. -/
def foldColName (a b : String) : String := "Fold_change: " ++ a ++ "/" ++ b

/-- Name of the log2 fold-change column of an ordered condition pair. -/
def logFoldColName (a b : String) : String := "Log2_fold_change: " ++ a ++ "/" ++ b

/-- Per-condition body of the first loop of Clipper.general_conditions:
select the condition's channel columns and write its mean, deviation and CV
columns. -/
def statStep (dfCols : List String) (quant : String) (t : Table)
    (cond : String × List String) : Table :=
  let sel := selectCols dfCols cond.2 quant
  let t := assignCol t (cond.1 ++ "_mean") (.meanC sel)
  let t := assignCol t (cond.1 ++ "_deviation") (.stdC sel)
  assignCol t (cond.1 ++ "_CV") (.cvC sel)

/-- Per-pair body of the second loop of Clipper.general_conditions: write
the ordered pair's fold-change column and its log2 sibling. -/
def pairStep (dfCols : List String) (quant : String) (conditions : Conditions)
    (t : Table) (pr : String × String) : Table :=
  let sel0 := selectCols dfCols (condLookup conditions pr.1) quant
  let sel1 := selectCols dfCols (condLookup conditions pr.2) quant
  let t := assignCol t (foldColName pr.1 pr.2) (.foldC sel0 sel1)
  assignCol t (logFoldColName pr.1 pr.2) (.log2C (.foldC sel0 sel1))

/-- Clipper.general_conditions: install the default condition map if none is
set, write mean, standard deviation and CV columns per condition, and when
more than one condition exists write fold-change and log2 fold-change
columns for every ordered pair of distinct conditions. -/
def general_conditions (dfCols : List String) (quant : String)
    (conditions0 : Conditions) (annot : Table) : Table :=
  let conditions := if conditions0.isEmpty then defaultConditions else conditions0
  let annot := conditions.foldl (statStep dfCols quant) annot
  if 1 < conditions.length then
    (permPairs (conditions.map Prod.fst)).foldl (pairStep dfCols quant conditions) annot
  else annot

/-- The column names written by the per-condition statistics loop, in
order. -/
def statColNames (conds : Conditions) : List String :=
  (conds.map (fun c => [c.1 ++ "_mean", c.1 ++ "_deviation", c.1 ++ "_CV"])).flatten

/-- The column names written by the ordered-pair fold-change loop, in
order. -/
def pairColNames (conditions : Conditions) : List String :=
  ((permPairs (conditions.map Prod.fst)).map
    (fun pr => [foldColName pr.1 pr.2, logFoldColName pr.1 pr.2])).flatten

/-- Python "_".join of the condition names. -/
def joinUnderscore : List String → String
  | [] => ""
  | [a] => a
  | a :: rest => a ++ "_" ++ joinUnderscore rest

/-- Clipper.condition_statistics.  In pairwise mode, one two-sample test per
unordered condition pair.  Otherwise, for at least two conditions the inner
helper perform_test(test_func, cols0, cols1, column_name, column_log) is
called as perform_test(test_func, *cols_per_condition, column_name,
column_log): the starred list contributes one positional argument per
condition, so the call matches the 5-parameter signature only when exactly
two conditions exist; with more, Python raises a TypeError before any
column is written. -/
def condition_statistics (dfCols : List String) (quant : String)
    (conditions : Conditions) (pairwise : Bool) (annot : Table) :
    Except String Table :=
  if pairwise then
    .ok ((combPairs (conditions.map Prod.fst)).foldl (fun t pr =>
      let cols0 := selectCols dfCols (condLookup conditions pr.1) quant
      let cols1 := selectCols dfCols (condLookup conditions pr.2) quant
      let t := assignCol t ("Ttest: " ++ pr.1 ++ "_" ++ pr.2)
        (.pvalsC "ttest_ind" cols0 cols1)
      assignCol t ("Log10_ttest: " ++ pr.1 ++ "_" ++ pr.2)
        (.log10C (.pvalsC "ttest_ind" cols0 cols1))) annot)
  else
    if 2 ≤ conditions.length then
      let names := conditions.map Prod.fst
      let testName := if conditions.length = 2 then "ttest_ind" else "f_oneway"
      let columnName :=
        (if conditions.length = 2 then "Ttest: " else "ANOVA: ") ++ joinUnderscore names
      let columnLog := "Log10_" ++ columnName
      let colsPerCondition := names.map (fun c => selectCols dfCols (condLookup conditions c) quant)
      match colsPerCondition with
      | [cols0, cols1] =>
        .ok (assignCol
          (assignCol annot columnName (.pvalsC testName cols0 cols1))
          columnLog (.log10C (.pvalsC testName cols0 cols1)))
      | l =>
        .error ("TypeError: perform_test() takes 5 positional arguments but " ++
          toString (l.length + 3) ++ " were given")
    else .ok annot

/-- Reassembly step of Clipper.correct_multiple_testing.perform_correction:
write the corrected values back at the index positions that held non-missing
p-values, leaving every other position missing.  The second list is consumed
in order; the final case is unreachable under the length check of
corrected_pvals. -/
def scatterCorrected : List (Option ℚ) → List ℚ → List (Option ℚ)
  | [], _ => []
  | none :: rest, cs => none :: scatterCorrected rest cs
  | some _ :: rest, c :: cs => some c :: scatterCorrected rest cs
  | some _ :: rest, [] => none :: scatterCorrected rest []

/-- The corrected p-value array of perform_correction: drop NaN entries,
apply the multiple-testing procedure mt (statsmodels multipletests, kept
abstract) to the non-missing sub-array, and scatter the result back to the
original index positions.  A procedure returning an array of a different
length than its input would fail the numpy masked assignment, modelled as
the error case. -/
def corrected_pvals (mt : List ℚ → List ℚ) (pvals : List (Option ℚ)) :
    Except String (List (Option ℚ)) :=
  let pvalsNoNan := pvals.filterMap id
  let correctedNoNan := mt pvalsNoNan
  if correctedNoNan.length = pvalsNoNan.length then
    .ok (scatterCorrected pvals correctedNoNan)
  else .error "ValueError: could not broadcast corrected p-values"

/-- Materialize an optional rational list as table cells. -/
def optCells (l : List (Option ℚ)) : List Cell :=
  l.map (fun o => match o with | some q => Cell.num q | none => Cell.nan)

/-- Clipper.correct_multiple_testing.perform_correction: compute the
corrected p-value array from the passed-in p-values, locate the original
p-value column, and insert the corrected column at its position + 2 and the
log10 of the corrected column at position + 3. -/
def perform_correction (mt : List ℚ → List ℚ) (pvals : List (Option ℚ))
    (columnName columnLog originalColumnName : String) (annot : Table) :
    Except String Table :=
  match corrected_pvals mt pvals with
  | .error e => .error e
  | .ok corrected =>
    match findColIdx annot originalColumnName with
    | none => .error ("KeyError: " ++ originalColumnName)
    | some idx =>
      match insertAt annot (idx + 2) columnName (.lit (optCells corrected)) with
      | .error e => .error e
      | .ok t => insertAt t (idx + 3) columnLog (.log10C (.lit (optCells corrected)))

/-- Name of the percentile significance column of an ordered condition
pair. -/
def sigColName (a b : String) : String := "Fold " ++ a ++ "/" ++ b ++ " significance"

/-- Numeric view of a cell, none for NaN and non-numeric cells: the dropna
used to build the histogram input. -/
def cellToRat : Cell → Option ℚ
  | .num q => some q
  | _ => none

/-- Clipper.percentile_fold.classify_fold_change for one cell: evaluate the
histogram CDF at the value and compare against the cutoffs; a missing value
propagates through the comparisons as unmarked.  The cdf argument stands
for scipy rv_histogram(hist).cdf, kept abstract. -/
def classify_fold_change (cdf : ℚ → ℚ) (leftCutoff rightCutoff : ℚ) :
    Cell → Option String
  | .num v =>
    let cd := cdf v
    if rightCutoff < cd then some "significant high"
    else if cd < leftCutoff then some "significant low"
    else none
  | _ => none

/-- An optional label as a table cell. -/
def labelCell : Option String → Cell
  | some s => .str s
  | none => .nan

/-- The significance labels written for one pair under a row mask: rows
outside the mask stay missing (index alignment of the subframe assignment),
rows inside are classified against the CDF built from the histogram of the
masked column's non-missing values. -/
def maskedLabels (cdfOf : List ℚ → ℚ → ℚ) (leftCutoff rightCutoff : ℚ)
    (mask : List Bool) (vals : List Cell) : List Cell :=
  let data := (mask.zip vals).filterMap (fun mv => if mv.1 then cellToRat mv.2 else none)
  let cdf := cdfOf data
  (mask.zip vals).map (fun mv =>
    if mv.1 then labelCell (classify_fold_change cdf leftCutoff rightCutoff mv.2)
    else Cell.nan)

/-- The per-row Internal flags of the nterm scope:
self.annot["nterm_annot"] == "Internal". -/
def internalMask (ntermCells : List Cell) : List Bool :=
  ntermCells.map (fun c => c == Cell.str "Internal")

/-- One pair iteration of Clipper.percentile_fold: initialize the pair's
significance column to all-NaN, then select the subframe by scope — the
whole table for scope all; for scope nterm the rows whose nterm_annot is
Internal, or their complement when the fold-change column name ends with
"low" — and classify its fold-change values; any other scope logs and
skips, leaving the initialized column.  Reading an absent column is the
KeyError abort of pandas indexing; cdfOf stands for the scipy
histogram-CDF construction. -/
def processPair (cdfOf : List ℚ → ℚ → ℚ) (significance : String)
    (leftCutoff rightCutoff : ℚ) (annot : Table) (pr : String × String) :
    Except String Table :=
  let column := foldColName pr.1 pr.2
  let annot := assignCol annot (sigColName pr.1 pr.2)
    (.lit (List.replicate (tableHeight annot) Cell.nan))
  if significance = "all" then
    match getCol annot column with
    | some (.lit vals) =>
      .ok (assignCol annot (sigColName pr.1 pr.2)
        (.lit (maskedLabels cdfOf leftCutoff rightCutoff (vals.map (fun _ => true)) vals)))
    | some _ => .error ("TypeError: column is not materialized: " ++ column)
    | none => .error ("KeyError: " ++ column)
  else if significance = "nterm" then
    match getCol annot "nterm_annot" with
    | some (.lit ntermCells) =>
      let isInternal := internalMask ntermCells
      let mask := if endsWithB column "low" then isInternal.map (fun b => !b) else isInternal
      match getCol annot column with
      | some (.lit vals) =>
        .ok (assignCol annot (sigColName pr.1 pr.2)
          (.lit (maskedLabels cdfOf leftCutoff rightCutoff mask vals)))
      | some _ => .error ("TypeError: column is not materialized: " ++ column)
      | none => .error ("KeyError: " ++ column)
    | some _ => .error "TypeError: column is not materialized: nterm_annot"
    | none => .error "KeyError: nterm_annot"
  else
    .ok annot

/-- Clipper.percentile_fold: with more than one condition, iterate the
ordered pairs of distinct conditions with the cutoffs
left = percentile, right = 1 - percentile. -/
def percentile_fold (cdfOf : List ℚ → ℚ → ℚ) (significance : String)
    (percentile : ℚ) (conditions : Conditions) (annot : Table) :
    Except String Table :=
  let leftCutoff := percentile
  let rightCutoff := 1 - percentile
  if 1 < conditions.length then
    (permPairs (conditions.map Prod.fst)).foldlM
      (processPair cdfOf significance leftCutoff rightCutoff) annot
  else .ok annot

/-! Theorems about the exopeptidase detector. -/

/-- Rows with equal sequences always carry equal labels, and the label
column stays parallel to the rows. -/
def EqLabelInv (rows labels : List (Option String)) : Prop :=
  labels.length = rows.length ∧
  ∀ i j s, rows.get? i = some (some s) → rows.get? j = some (some s) →
    labels.get? i = labels.get? j

theorem setAll_get? (rows : List (Option String)) :
    ∀ (labels : List (Option String)) (pep lab : String) (i : Nat),
    (setAll rows labels pep lab).get? i =
      ((rows.get? i).map (fun s l => if s = some pep then some lab else l)).bind
        (fun g => (labels.get? i).map g) := by
  induction rows with
  | nil => intro labels pep lab i; simp [setAll]
  | cons r rs ih =>
    intro labels pep lab i
    cases labels with
    | nil => simp [setAll]
    | cons l ls =>
      cases i with
      | zero => simp [setAll]
      | succ n => simpa [setAll] using ih ls pep lab n

theorem setAll_eqLabelInv (rows labels : List (Option String)) (pep lab : String)
    (h : EqLabelInv rows labels) : EqLabelInv rows (setAll rows labels pep lab) := by
  obtain ⟨hlen, hinv⟩ := h
  refine ⟨by simp [setAll, hlen], ?_⟩
  intro i j s hi hj
  rw [setAll_get?, setAll_get?, hi, hj, hinv i j s hi hj]

theorem exoStep_eqLabelInv (rows : List (Option String)) (st : ScanState)
    (pep : String) (h : EqLabelInv rows st.labels) :
    EqLabelInv rows (exoStep rows st pep).labels := by
  unfold exoStep
  split_ifs <;> first
    | exact setAll_eqLabelInv rows st.labels _ _ h
    | exact h

theorem foldl_exoStep_eqLabelInv (rows : List (Option String))
    (matching : List String) (st : ScanState) (h : EqLabelInv rows st.labels) :
    EqLabelInv rows ((matching.foldl (exoStep rows) st).labels) := by
  induction matching generalizing st with
  | nil => exact h
  | cons pep rest ih => exact ih _ (exoStep_eqLabelInv rows st pep h)

theorem exoOuter_eqLabelInv (rows : List (Option String)) (sequences : List String)
    (st : List String × List (Option String)) (seq : String)
    (h : EqLabelInv rows st.2) : EqLabelInv rows (exoOuter rows sequences st seq).2 := by
  simp only [exoOuter]
  split_ifs with h1 h2
  · exact h
  · apply foldl_exoStep_eqLabelInv
    exact h
  · exact h

theorem foldl_exoOuter_eqLabelInv (rows : List (Option String))
    (sequences scanned : List String) (st : List String × List (Option String))
    (h : EqLabelInv rows st.2) :
    EqLabelInv rows ((scanned.foldl (exoOuter rows sequences) st).2) := by
  induction scanned generalizing st with
  | nil => exact h
  | cons seq rest ih => exact ih _ (exoOuter_eqLabelInv rows sequences st seq h)

/-- C4 (amended): for every input sequence column, any two rows holding the
same non-missing sequence string receive one identical exopeptidase label;
the labelling is a deterministic function of the ordered sequence column. -/
theorem exopeptidase_equal_sequences_equal_labels
    (rows : List (Option String)) (i j : Nat) (s : String)
    (hi : rows.get? i = some (some s)) (hj : rows.get? j = some (some s)) :
    (exopeptidase rows).get? i = (exopeptidase rows).get? j := by
  have hinv : EqLabelInv rows (exopeptidase rows) := by
    unfold exopeptidase
    refine foldl_exoOuter_eqLabelInv rows _ _ _ ?_
    constructor
    · simp
    · intro i j s hi hj
      have h1 : (rows.map (fun _ => (none : Option String))).get? i = some none := by
        rw [List.get?_map, hi]; rfl
      have h2 : (rows.map (fun _ => (none : Option String))).get? j = some none := by
        rw [List.get?_map, hj]; rfl
      rw [h1, h2]
  exact hinv.2 i j s hi hj

/-- Witness for C4's amended theorem at a concrete table: rows 0 and 2 share
the sequence AA and get equal labels. -/
theorem exopeptidase_equal_sequences_equal_labels_witness :
    (exopeptidase [some "AA", none, some "AA"]).get? 0 =
      (exopeptidase [some "AA", none, some "AA"]).get? 2 :=
  exopeptidase_equal_sequences_equal_labels [some "AA", none, some "AA"] 0 2 "AA"
    (by decide) (by decide)

/-- C4 (counterexample): two sequence columns that are permutations of each
other — the two length-10 sequences swapped — do not produce the same label
for the shared row ABCDEFG: one run labels it Dipeptidase_activity, the
other Dipeptidase_seed_Aminopeptidase_activity.  Labelling is therefore not
a function of the sequence multiset. -/
theorem exopeptidase_not_multiset_function :
    List.Perm
      [some "XYZABCDEFG", some "UVWABCDEFG", some "VWABCDEFG", some "ZABCDEFG",
       some "ABCDEFG"]
      [some "UVWABCDEFG", some "XYZABCDEFG", some "VWABCDEFG", some "ZABCDEFG",
       some "ABCDEFG"] ∧
    (exopeptidase [some "XYZABCDEFG", some "UVWABCDEFG", some "VWABCDEFG",
      some "ZABCDEFG", some "ABCDEFG"]).get? 4 =
      some (some "Dipeptidase_activity") ∧
    (exopeptidase [some "UVWABCDEFG", some "XYZABCDEFG", some "VWABCDEFG",
      some "ZABCDEFG", some "ABCDEFG"]).get? 4 =
      some (some "Dipeptidase_seed_Aminopeptidase_activity") :=
  ⟨List.Perm.swap _ _ _, by decide, by decide⟩

/-- C5 (amended): in the outer loop, an unprocessed sequence whose
final-5-character anchor is matched by at most one entry of the full sorted
sequence list — the matches include the sequence itself, so this means no
other sequence shares the anchor — starts no ragged series: the step only
adds the sequence to the cleared set and leaves every label unchanged. -/
theorem exoOuter_no_series_when_anchor_unshared
    (rows : List (Option String)) (sequences cleared : List String)
    (labels : List (Option String)) (seq : String)
    (hseq : seq ∉ cleared)
    (hm : (sequences.filter
      (fun p => endsWithB p (strDrop seq (seq.length - 5)))).length ≤ 1) :
    exoOuter rows sequences (cleared, labels) seq = (seq :: cleared, labels) := by
  unfold exoOuter
  rw [if_neg hseq, if_neg (by exact Nat.not_lt.mpr hm)]

/-- Witness for C5's amended theorem: a single sequence with no anchor
partner is cleared and nothing is labelled. -/
theorem exoOuter_no_series_when_anchor_unshared_witness :
    exoOuter [some "ABCDE"] ["ABCDE"] ([], [none]) "ABCDE" = (["ABCDE"], [none]) :=
  exoOuter_no_series_when_anchor_unshared [some "ABCDE"] ["ABCDE"] [] [none] "ABCDE"
    (by decide) (by decide)

/-- C5 (counterexample): with sequences ABCDEF and BCDEF the scan of ABCDEF
has exactly one other anchor-sharing candidate, yet it does label BCDEF as
Aminopeptidase_activity — the guard counts the scanned sequence itself among
the matches, so one other candidate suffices to create a series. -/
theorem exopeptidase_labels_with_single_other_candidate :
    exopeptidase [some "ABCDEF", some "BCDEF"] =
      [none, some "Aminopeptidase_activity"] ∧
    exopeptidase [some "ABCDEF", some "BCDEF"] ≠ [none, none] :=
  ⟨by decide, by decide⟩

/-- C7: on the scenario table with sequences ABCDEFGHIJ, BCDEFGHIJ and
DEFGHIJ (also with a missing row and a duplicate), every row with sequence
BCDEFGHIJ is labelled Aminopeptidase_activity, every row with DEFGHIJ is
labelled Dipeptidase_activity, and the seed ABCDEFGHIJ stays unlabelled. -/
theorem exopeptidase_concrete_scenario :
    exopeptidase [some "ABCDEFGHIJ", some "BCDEFGHIJ", some "DEFGHIJ"] =
      [none, some "Aminopeptidase_activity", some "Dipeptidase_activity"] ∧
    exopeptidase [some "ABCDEFGHIJ", some "BCDEFGHIJ", none, some "DEFGHIJ",
      some "BCDEFGHIJ"] =
      [none, some "Aminopeptidase_activity", none, some "Dipeptidase_activity",
       some "Aminopeptidase_activity"] :=
  ⟨by decide, by decide⟩

/-! Theorems about the percentile classifier. -/

/-- C9: percentile classification is monotone in the cutoff.  For one CDF
and one value, any label assigned at a tighter cutoff (smaller percentile)
is also assigned at a looser cutoff in (0, 1/2), and a value unmarked at the
looser cutoff is unmarked at the tighter one. -/
theorem classify_fold_change_monotone_in_cutoff
    (cdf : ℚ → ℚ) (v : Cell) (p p' : ℚ)
    (h0 : 0 < p') (h1 : p' < p) (h2 : p < 1 / 2) :
    (∀ lab, classify_fold_change cdf p' (1 - p') v = some lab →
      classify_fold_change cdf p (1 - p) v = some lab) ∧
    (classify_fold_change cdf p (1 - p) v = none →
      classify_fold_change cdf p' (1 - p') v = none) := by
  cases v with
  | num q =>
    constructor
    · intro lab hl
      simp only [classify_fold_change] at hl ⊢
      by_cases hA : 1 - p' < cdf q
      · rw [if_pos hA] at hl
        rw [if_pos (show 1 - p < cdf q by linarith)]
        exact hl
      · rw [if_neg hA] at hl
        by_cases hB : cdf q < p'
        · rw [if_pos hB] at hl
          rw [if_neg (show ¬(1 - p < cdf q) by intro hc; linarith),
            if_pos (show cdf q < p by linarith)]
          exact hl
        · rw [if_neg hB] at hl
          exact absurd hl (by simp)
    · intro hl
      simp only [classify_fold_change] at hl ⊢
      by_cases hA : 1 - p < cdf q
      · rw [if_pos hA] at hl
        exact absurd hl (by simp)
      · rw [if_neg hA] at hl
        by_cases hB : cdf q < p
        · rw [if_pos hB] at hl
          exact absurd hl (by simp)
        · push_neg at hA hB
          rw [if_neg (show ¬(1 - p' < cdf q) by intro hc; linarith),
            if_neg (show ¬(cdf q < p') by intro hc; linarith)]
  | str s => exact ⟨fun lab hl => hl, fun hl => hl⟩
  | nan => exact ⟨fun lab hl => hl, fun hl => hl⟩

/-- Witness for C9 at a concrete CDF value 9/10 and cutoffs 1/4 < 2/5. -/
theorem classify_fold_change_monotone_in_cutoff_witness :
    (∀ lab, classify_fold_change (fun _ => (9 : ℚ)/10) ((1 : ℚ)/4) (1 - (1 : ℚ)/4)
        (.num 0) = some lab →
      classify_fold_change (fun _ => (9 : ℚ)/10) ((2 : ℚ)/5) (1 - (2 : ℚ)/5)
        (.num 0) = some lab) ∧
    (classify_fold_change (fun _ => (9 : ℚ)/10) ((2 : ℚ)/5) (1 - (2 : ℚ)/5)
        (.num 0) = none →
      classify_fold_change (fun _ => (9 : ℚ)/10) ((1 : ℚ)/4) (1 - (1 : ℚ)/4)
        (.num 0) = none) :=
  classify_fold_change_monotone_in_cutoff (fun _ => (9 : ℚ)/10) (.num 0)
    ((2 : ℚ)/5) ((1 : ℚ)/4) (by norm_num) (by norm_num) (by norm_num)

theorem getCol_assignCol_self (t : Table) (n : String) (c : ColV) :
    getCol (assignCol t n c) n = some c := by
  induction t with
  | nil => simp [assignCol, getCol]
  | cons p t ih =>
    by_cases h : p.1 = n
    · simp [assignCol, getCol, h]
    · simp [assignCol, getCol, h, ih]

theorem getCol_assignCol_ne (t : Table) (n : String) (c : ColV) (m : String)
    (h : m ≠ n) : getCol (assignCol t n c) m = getCol t m := by
  induction t with
  | nil => simp [assignCol, getCol, Ne.symm h]
  | cons p t ih =>
    obtain ⟨pn, pc⟩ := p
    by_cases hp : pn = n
    · simp [assignCol, getCol, hp, Ne.symm h]
    · simp only [assignCol, if_neg hp, getCol]
      by_cases hm : pn = m
      · rw [if_pos hm, if_pos hm]
      · rw [if_neg hm, if_neg hm, ih]

theorem assignCol_assignCol_same (t : Table) (n : String) (c1 c2 : ColV) :
    assignCol (assignCol t n c1) n c2 = assignCol t n c2 := by
  induction t with
  | nil => simp [assignCol]
  | cons p t ih =>
    by_cases h : p.1 = n
    · simp [assignCol, h]
    · simp [assignCol, h, ih]

/-- An invalid significance scope makes the pair iteration log and skip:
the pair's significance column is initialized to all-NaN and nothing else
happens, with no error raised. -/
theorem processPair_invalid_scope (cdfOf : List ℚ → ℚ → ℚ) (sig : String)
    (l r : ℚ) (annot : Table) (pr : String × String)
    (h1 : sig ≠ "all") (h2 : sig ≠ "nterm") :
    processPair cdfOf sig l r annot pr =
      .ok (assignCol annot (sigColName pr.1 pr.2)
        (.lit (List.replicate (tableHeight annot) Cell.nan))) := by
  simp only [processPair]
  rw [if_neg h1, if_neg h2]

theorem foldlM_processPair_invalid (cdfOf : List ℚ → ℚ → ℚ) (sig : String)
    (l r : ℚ) (h1 : sig ≠ "all") (h2 : sig ≠ "nterm") :
    ∀ (pairs : List (String × String)) (annot : Table),
    ∃ t, pairs.foldlM (processPair cdfOf sig l r) annot = .ok t ∧
      (∀ name, (∀ pr ∈ pairs, name ≠ sigColName pr.1 pr.2) →
        getCol t name = getCol annot name) ∧
      (∀ pr ∈ pairs, ∃ cells, getCol t (sigColName pr.1 pr.2) = some (.lit cells) ∧
        ∀ c ∈ cells, c = Cell.nan) := by
  intro pairs
  induction pairs with
  | nil => exact fun annot => ⟨annot, rfl, fun name _ => rfl, by simp⟩
  | cons pr rest ih =>
    intro annot
    obtain ⟨t, hfold, hpres, hsig⟩ :=
      ih (assignCol annot (sigColName pr.1 pr.2)
        (.lit (List.replicate (tableHeight annot) Cell.nan)))
    refine ⟨t, ?_, ?_, ?_⟩
    · rw [List.foldlM_cons, processPair_invalid_scope cdfOf sig l r annot pr h1 h2]
      exact hfold
    · intro name hname
      rw [hpres name (fun pr2 hpr2 => hname pr2 (List.mem_cons_of_mem pr hpr2))]
      exact getCol_assignCol_ne annot _ _ name (hname pr (List.mem_cons_self pr rest))
    · intro pr2 hpr2
      rcases List.mem_cons.mp hpr2 with h | h
      · subst h
        by_cases hc : ∃ pr3 ∈ rest, sigColName pr2.1 pr2.2 = sigColName pr3.1 pr3.2
        · obtain ⟨pr3, hpr3, heq⟩ := hc
          obtain ⟨cells, hg, hcells⟩ := hsig pr3 hpr3
          exact ⟨cells, by rw [heq]; exact hg, hcells⟩
        · push_neg at hc
          rw [hpres _ (fun pr3 hpr3 => hc pr3 hpr3), getCol_assignCol_self]
          exact ⟨_, rfl, fun c hcm => List.eq_of_mem_replicate hcm⟩
      · exact hsig pr2 h

/-- C2 (amended): an unsupported significance-scope argument does not abort
the run.  percentile_fold returns normally; every pair's significance
column is left initialized to all-missing, and every other column of the
table is untouched. -/
theorem percentile_fold_invalid_scope_skips (cdfOf : List ℚ → ℚ → ℚ)
    (sig : String) (percentile : ℚ) (conditions : Conditions) (annot : Table)
    (h1 : sig ≠ "all") (h2 : sig ≠ "nterm") :
    ∃ t, percentile_fold cdfOf sig percentile conditions annot = .ok t ∧
      (∀ name, (∀ pr ∈ permPairs (conditions.map Prod.fst),
          name ≠ sigColName pr.1 pr.2) →
        getCol t name = getCol annot name) ∧
      (∀ pr ∈ permPairs (conditions.map Prod.fst),
        ∃ cells, getCol t (sigColName pr.1 pr.2) = some (.lit cells) ∧
          ∀ c ∈ cells, c = Cell.nan) := by
  by_cases hlen : 1 < conditions.length
  · simp only [percentile_fold]
    rw [if_pos hlen]
    exact foldlM_processPair_invalid cdfOf sig _ _ h1 h2 _ annot
  · simp only [percentile_fold]
    rw [if_neg hlen]
    have hpairs : permPairs (conditions.map Prod.fst) = [] := by
      match conditions, hlen with
      | [], _ => rfl
      | [c], _ => simp [permPairs, permPairsAux]
      | c1 :: c2 :: rest, hlen =>
        exact absurd (show 1 < (c1 :: c2 :: rest).length by simp) hlen
    rw [hpairs]
    exact ⟨annot, rfl, fun name _ => rfl, by simp⟩

/-- Witness for C2's amended theorem at a concrete invalid scope. -/
theorem percentile_fold_invalid_scope_skips_witness :
    ∃ t, percentile_fold (fun _ _ => 0) "bogus" 0
        [("a", ["1"]), ("b", ["2"])] [("x", .lit [.num 1])] = .ok t ∧
      (∀ name, (∀ pr ∈ permPairs ([("a", ["1"]), ("b", ["2"])].map
          (Prod.fst (α := String) (β := List String))),
          name ≠ sigColName pr.1 pr.2) →
        getCol t name = getCol [("x", ColV.lit [.num 1])] name) ∧
      (∀ pr ∈ permPairs ([("a", ["1"]), ("b", ["2"])].map
          (Prod.fst (α := String) (β := List String))),
        ∃ cells, getCol t (sigColName pr.1 pr.2) = some (.lit cells) ∧
          ∀ c ∈ cells, c = Cell.nan) :=
  percentile_fold_invalid_scope_skips (fun _ _ => 0) "bogus" 0
    [("a", ["1"]), ("b", ["2"])] [("x", .lit [.num 1])]
    (by decide) (by decide)

/-- C2 (counterexample): on a concrete run with the unsupported scope
"bogus", percentile_fold returns a table — the all-missing significance
columns appended — rather than aborting with an error. -/
theorem percentile_fold_invalid_scope_no_abort :
    percentile_fold (fun _ _ => 0) "bogus" 0 [("a", ["1"]), ("b", ["2"])]
      [("nterm_annot", .lit [.str "Internal"])] =
      .ok [("nterm_annot", .lit [.str "Internal"]),
           ("Fold a/b significance", .lit [.nan]),
           ("Fold b/a significance", .lit [.nan])] := by decide

theorem strDataAppend (s t : String) : (s ++ t).data = s.data ++ t.data := by
  cases s with
  | mk d1 => cases t with
    | mk d2 => rfl

theorem sigColName_ne_nterm_annot (a b : String) :
    sigColName a b ≠ "nterm_annot" := by
  intro h
  have hd := congrArg String.data h
  simp only [sigColName, strDataAppend] at hd
  simp at hd

theorem foldColName_ne_sigColName (a b c d : String) :
    foldColName a b ≠ sigColName c d := by
  intro h
  have hd := congrArg String.data h
  simp only [foldColName, sigColName, strDataAppend] at hd
  simp at hd

/-- C10 (amended): with the restricted nterm scope, each pair's
classification uses exactly the rows selected by the Internal mask — the
rows whose nterm_annot equals "Internal" when the fold-change column name
does not end in "low", and exactly the complementary rows when it does,
which happens whenever the second condition's name ends in "low".  The
histogram data and the labels both come from the masked rows only. -/
theorem processPair_nterm_masks_internal_rows (cdfOf : List ℚ → ℚ → ℚ)
    (l r : ℚ) (annot : Table) (a b : String) (ntermCells vals : List Cell)
    (hn : getCol annot "nterm_annot" = some (.lit ntermCells))
    (hf : getCol annot (foldColName a b) = some (.lit vals)) :
    processPair cdfOf "nterm" l r annot (a, b) =
      .ok (assignCol annot (sigColName a b)
        (.lit (maskedLabels cdfOf l r
          (if endsWithB (foldColName a b) "low"
            then (internalMask ntermCells).map (fun x => !x)
            else internalMask ntermCells) vals))) := by
  have hn2 : getCol (assignCol annot (sigColName a b)
      (.lit (List.replicate (tableHeight annot) Cell.nan))) "nterm_annot" =
      some (.lit ntermCells) := by
    rw [getCol_assignCol_ne _ _ _ _ (Ne.symm (sigColName_ne_nterm_annot a b))]
    exact hn
  have hf2 : getCol (assignCol annot (sigColName a b)
      (.lit (List.replicate (tableHeight annot) Cell.nan))) (foldColName a b) =
      some (.lit vals) := by
    rw [getCol_assignCol_ne _ _ _ _ (foldColName_ne_sigColName a b a b)]
    exact hf
  simp only [processPair, if_true, if_false, hn2, hf2]
  rw [if_neg (show ¬("nterm" = "all") by decide), assignCol_assignCol_same]

/-- Witness for C10's amended theorem at a concrete two-row table. -/
theorem processPair_nterm_masks_internal_rows_witness :
    processPair (fun _ v => v) "nterm" 0 1
      [("nterm_annot", .lit [.str "Internal", .str "Natural"]),
       ("Fold_change: x/y", .lit [.num 0, .num 2])] ("x", "y") =
      .ok (assignCol
        [("nterm_annot", .lit [.str "Internal", .str "Natural"]),
         ("Fold_change: x/y", .lit [.num 0, .num 2])]
        (sigColName "x" "y")
        (.lit (maskedLabels (fun _ v => v) 0 1
          (if endsWithB (foldColName "x" "y") "low"
            then (internalMask [.str "Internal", .str "Natural"]).map (fun x => !x)
            else internalMask [.str "Internal", .str "Natural"])
          [.num 0, .num 2]))) :=
  processPair_nterm_masks_internal_rows (fun _ v => v) 0 1
    [("nterm_annot", .lit [.str "Internal", .str "Natural"]),
     ("Fold_change: x/y", .lit [.num 0, .num 2])] "x" "y"
    [.str "Internal", .str "Natural"] [.num 0, .num 2] (by decide) (by decide)

/-- C10 (counterexample): for the ordered pair (a, low) — a legal condition
name ending in "low" — the nterm-scope pair iteration takes the
non-internal branch: the row whose nterm_annot is "Natural" receives the
significance label while the Internal row stays missing, refuting both that
labels go exactly to Internal rows and that the fold-change column name
never ends with "low".  The cutoffs 0 and 1 are those percentile_fold
derives from percentile 0. -/
theorem processPair_nterm_labels_non_internal_row :
    processPair (fun _ v => v) "nterm" 0 1
      [("nterm_annot", .lit [.str "Internal", .str "Natural"]),
       ("Fold_change: a/low", .lit [.num 0, .num 2])] ("a", "low") =
      .ok [("nterm_annot", .lit [.str "Internal", .str "Natural"]),
           ("Fold_change: a/low", .lit [.num 0, .num 2]),
           ("Fold a/low significance", .lit [.nan, .str "significant high"])] := by
  decide

/-! Theorems about multiple-testing correction. -/

theorem scatterCorrected_spec :
    ∀ (pvals : List (Option ℚ)) (cs : List ℚ),
    cs.length = (pvals.filterMap id).length →
    (scatterCorrected pvals cs).map Option.isNone = pvals.map Option.isNone ∧
    (scatterCorrected pvals cs).filterMap id = cs := by
  intro pvals
  induction pvals with
  | nil =>
    intro cs h
    have hcs : cs = [] := List.length_eq_zero.mp (by simpa using h)
    subst hcs
    simp [scatterCorrected]
  | cons p rest ih =>
    intro cs h
    cases p with
    | none =>
      obtain ⟨h1, h2⟩ := ih cs (by simpa using h)
      simp [scatterCorrected, h1, h2]
    | some q =>
      cases cs with
      | nil => exact absurd h (by simp)
      | cons c cs2 =>
        obtain ⟨h1, h2⟩ := ih cs2 (by simpa using h)
        simp [scatterCorrected, h1, h2]

/-- C3: when the correction procedure returns one value per input — as
statsmodels multipletests does — the reassembled corrected array has
exactly the length of the input array, missing entries at exactly the
input's missing positions, and the corrected values written back in order
at the non-missing positions. -/
theorem corrected_pvals_preserves_nan_positions (mt : List ℚ → List ℚ)
    (pvals : List (Option ℚ))
    (hmt : ∀ l, (mt l).length = l.length) :
    ∃ out, corrected_pvals mt pvals = .ok out ∧
      out.map Option.isNone = pvals.map Option.isNone ∧
      out.length = pvals.length ∧
      out.filterMap id = mt (pvals.filterMap id) := by
  have hlen := hmt (pvals.filterMap id)
  obtain ⟨h1, h2⟩ := scatterCorrected_spec pvals (mt (pvals.filterMap id)) hlen
  refine ⟨scatterCorrected pvals (mt (pvals.filterMap id)), ?_, h1, ?_, h2⟩
  · simp only [corrected_pvals]
    rw [if_pos hlen]
  · have hl := congrArg List.length h1
    simpa using hl

/-- Witness for C3 with the identity correction on a concrete array with a
missing entry. -/
theorem corrected_pvals_preserves_nan_positions_witness :
    ∃ out, corrected_pvals (fun l => l) [some 1, none, some 2] = .ok out ∧
      out.map Option.isNone = [some (1 : ℚ), none, some 2].map Option.isNone ∧
      out.length = [some (1 : ℚ), none, some 2].length ∧
      out.filterMap id = (fun l => l) ([some (1 : ℚ), none, some 2].filterMap id) :=
  corrected_pvals_preserves_nan_positions (fun l => l) [some 1, none, some 2]
    (fun _ => rfl)

theorem findColIdx_append (pre : Table) (ocn : String) (p : ColV) (rest : Table)
    (hfresh : ocn ∉ pre.map Prod.fst) :
    findColIdx (pre ++ (ocn, p) :: rest) ocn = some pre.length := by
  induction pre with
  | nil => simp [findColIdx]
  | cons q pre ih =>
    obtain ⟨qn, qc⟩ := q
    have h1 : qn ≠ ocn := by
      intro hc
      exact hfresh (by simp [hc])
    have h2 : ocn ∉ pre.map Prod.fst := fun hc => hfresh (by simp [hc])
    simp [findColIdx, h1, ih h2]

theorem insertAt_append (pre post : Table) (name : String) (c : ColV)
    (hdup : name ∉ (pre ++ post).map Prod.fst) :
    insertAt (pre ++ post) pre.length name c = .ok (pre ++ (name, c) :: post) := by
  simp only [insertAt]
  rw [if_neg hdup, if_neg (by simp), List.take_left, List.drop_left]

/-- C6: perform_correction inserts exactly two new columns — the corrected
p-values and their symbolic log10 — directly after the original
p-value/log-p-value column pair, and every other column, in its original
order, is untouched. -/
theorem perform_correction_inserts_adjacent (mt : List ℚ → List ℚ)
    (pvals : List (Option ℚ)) (pre post : Table) (p lp : ColV)
    (origName logName corrName corrLogName : String)
    (corrected : List (Option ℚ))
    (hok : corrected_pvals mt pvals = .ok corrected)
    (hfind : origName ∉ pre.map Prod.fst)
    (hc1 : corrName ∉ (pre ++ (origName, p) :: (logName, lp) :: post).map Prod.fst)
    (hc2 : corrLogName ∉ (pre ++ (origName, p) :: (logName, lp) :: post).map Prod.fst)
    (hne : corrLogName ≠ corrName) :
    perform_correction mt pvals corrName corrLogName origName
        (pre ++ (origName, p) :: (logName, lp) :: post) =
      .ok (pre ++ (origName, p) :: (logName, lp) ::
        (corrName, .lit (optCells corrected)) ::
        (corrLogName, .log10C (.lit (optCells corrected))) :: post) := by
  have e1 : pre ++ (origName, p) :: (logName, lp) :: post
      = (pre ++ [(origName, p), (logName, lp)]) ++ post := by simp
  have h2 : insertAt (pre ++ (origName, p) :: (logName, lp) :: post)
      (pre.length + 2) corrName (.lit (optCells corrected)) =
      .ok (pre ++ (origName, p) :: (logName, lp) ::
        (corrName, .lit (optCells corrected)) :: post) := by
    rw [e1, show pre.length + 2 = (pre ++ [(origName, p), (logName, lp)]).length by simp]
    rw [insertAt_append _ post corrName _ (by rw [← e1]; exact hc1)]
    simp
  have hc2b : corrLogName ∉ (pre ++ (origName, p) :: (logName, lp) ::
      (corrName, ColV.lit (optCells corrected)) :: post).map Prod.fst := by
    intro hmem
    simp only [List.map_append, List.map_cons, List.mem_append, List.mem_cons] at hmem hc2
    rcases hmem with h | h | h | h | h
    · exact hc2 (Or.inl h)
    · exact hc2 (Or.inr (Or.inl h))
    · exact hc2 (Or.inr (Or.inr (Or.inl h)))
    · exact hne h
    · exact hc2 (Or.inr (Or.inr (Or.inr h)))
  have e2 : pre ++ (origName, p) :: (logName, lp) ::
      (corrName, ColV.lit (optCells corrected)) :: post
      = (pre ++ [(origName, p), (logName, lp),
          (corrName, ColV.lit (optCells corrected))]) ++ post := by simp
  have h3 : insertAt (pre ++ (origName, p) :: (logName, lp) ::
      (corrName, ColV.lit (optCells corrected)) :: post)
      (pre.length + 3) corrLogName (.log10C (.lit (optCells corrected))) =
      .ok (pre ++ (origName, p) :: (logName, lp) ::
        (corrName, .lit (optCells corrected)) ::
        (corrLogName, .log10C (.lit (optCells corrected))) :: post) := by
    rw [e2, show pre.length + 3 = (pre ++ [(origName, p), (logName, lp),
      (corrName, ColV.lit (optCells corrected))]).length by simp]
    rw [insertAt_append _ post corrLogName _ (by rw [← e2]; exact hc2b)]
    simp
  simp only [perform_correction, hok,
    findColIdx_append pre origName p ((logName, lp) :: post) hfind, h2, h3]

/-- Witness for C6 on a one-column table with a concrete correction. -/
theorem perform_correction_inserts_adjacent_witness :
    perform_correction (fun l => l) [some 1] "C" "D" "T"
        ([] ++ ("T", ColV.lit [Cell.num 1]) :: ("L", ColV.lit [Cell.num 0]) :: []) =
      .ok ([] ++ ("T", ColV.lit [Cell.num 1]) :: ("L", ColV.lit [Cell.num 0]) ::
        ("C", .lit (optCells [some 1])) ::
        ("D", .log10C (.lit (optCells [some 1]))) :: []) :=
  perform_correction_inserts_adjacent (fun l => l) [some 1] [] [] (ColV.lit [Cell.num 1])
    (ColV.lit [Cell.num 0]) "T" "L" "C" "D" [some 1] (by decide) (by decide)
    (by decide) (by decide) (by decide)

/-! Theorems about the significance engine and condition statistics. -/

/-- C1 (failing run): in omnibus mode with three conditions the engine does
not produce ANOVA columns — the inner perform_test helper takes five
positional arguments and the starred call supplies six, so the run dies
with a TypeError before writing anything. -/
theorem condition_statistics_omnibus_three_conditions_type_error :
    condition_statistics ["A 126", "A 127", "A 128"] "A"
      [("c1", ["126"]), ("c2", ["127"]), ("c3", ["128"])] false [] =
      .error
        "TypeError: perform_test() takes 5 positional arguments but 6 were given" := by
  decide

theorem isPrefixCB_append (p r : List Char) : isPrefixCB p (p ++ r) = true := by
  induction p with
  | nil => rfl
  | cons c cs ih => simp [isPrefixCB, ih]

theorem isFoldName_foldColName (a b : String) :
    isPrefixCB ("Fold_change: ".data) (foldColName a b).data = true := by
  have : (foldColName a b).data =
      "Fold_change: ".data ++ (a.data ++ ("/".data ++ b.data)) := by
    simp [foldColName, strDataAppend]
  rw [this, isPrefixCB_append]

theorem isFoldName_logFoldColName (a b : String) :
    isPrefixCB ("Fold_change: ".data) (logFoldColName a b).data = false := by
  have : (logFoldColName a b).data =
      "Log2_fold_change: ".data ++ (a.data ++ ("/".data ++ b.data)) := by
    simp [logFoldColName, strDataAppend]
  rw [this]
  rfl

theorem filter_bne_length (l : List String) (a : String) (hnd : l.Nodup)
    (ha : a ∈ l) : (l.filter (fun b => b != a)).length = l.length - 1 := by
  induction l with
  | nil => cases ha
  | cons x xs ih =>
    rcases List.mem_cons.mp ha with h | h
    · subst h
      have hxs : xs.filter (fun b => b != a) = xs :=
        List.filter_eq_self.mpr (fun b hb => by
          have hba : b ≠ a := fun hc => (List.nodup_cons.mp hnd).1 (hc ▸ hb)
          simpa [bne_iff_ne] using hba)
      simp [List.filter_cons, hxs]
    · have hxa : x ≠ a := fun hc => (List.nodup_cons.mp hnd).1 (hc ▸ h)
      have hpos : 0 < xs.length := List.length_pos.mpr (List.ne_nil_of_mem h)
      simp [List.filter_cons, bne_iff_ne, hxa, ih (List.nodup_cons.mp hnd).2 h]
      omega

theorem permPairsAux_length (full : List String) (hnd : full.Nodup) :
    ∀ l, (∀ a ∈ l, a ∈ full) →
    (permPairsAux full l).length = l.length * (full.length - 1) := by
  intro l
  induction l with
  | nil => intro _; simp [permPairsAux]
  | cons a rest ih =>
    intro hsub
    have h1 := filter_bne_length full a hnd (hsub a (List.mem_cons_self a rest))
    have h2 := ih (fun b hb => hsub b (List.mem_cons_of_mem a hb))
    simp [permPairsAux, h1, h2]
    ring

theorem permPairs_length (l : List String) (hnd : l.Nodup) :
    (permPairs l).length = l.length * (l.length - 1) := by
  simpa [permPairs] using permPairsAux_length l hnd l (fun a ha => ha)

theorem assignCol_names_fresh (t : Table) (n : String) (c : ColV)
    (h : n ∉ t.map Prod.fst) :
    (assignCol t n c).map Prod.fst = t.map Prod.fst ++ [n] := by
  induction t with
  | nil => simp [assignCol]
  | cons p t ih =>
    obtain ⟨pn, pc⟩ := p
    have h1 : pn ≠ n := fun hc => h (by simp [hc])
    have h2 : n ∉ t.map Prod.fst := fun hc => h (by simp [hc])
    simp [assignCol, h1, ih h2]

theorem foldl_names_of_steps {α : Type} (step : Table → α → Table)
    (namesOf : α → List String)
    (hstep : ∀ t a, (∀ n ∈ namesOf a, n ∉ t.map Prod.fst) → (namesOf a).Nodup →
      ((step t a).map Prod.fst) = t.map Prod.fst ++ namesOf a) :
    ∀ (l : List α) (t : Table),
    (∀ n ∈ (l.map namesOf).flatten, n ∉ t.map Prod.fst) →
    ((l.map namesOf).flatten).Nodup →
    ((l.foldl step t).map Prod.fst) = t.map Prod.fst ++ (l.map namesOf).flatten := by
  intro l
  induction l with
  | nil => intro t _ _; simp
  | cons a rest ih =>
    intro t hfresh hnd
    have hsplit : ((a :: rest).map namesOf).flatten
        = namesOf a ++ (rest.map namesOf).flatten := by simp
    rw [hsplit] at hfresh hnd
    rw [List.nodup_append] at hnd
    obtain ⟨hndA, hndR, hdisj⟩ := hnd
    have hstepA := hstep t a (fun n hn => hfresh n (List.mem_append_left _ hn)) hndA
    have hfreshR : ∀ n ∈ (rest.map namesOf).flatten,
        n ∉ (step t a).map Prod.fst := by
      intro n hn
      rw [hstepA]
      intro hmem
      rcases List.mem_append.mp hmem with h | h
      · exact hfresh n (List.mem_append_right _ hn) h
      · exact hdisj (by simpa using h) hn
    rw [List.foldl_cons, ih (step t a) hfreshR hndR, hstepA, List.append_assoc,
      hsplit]

theorem statStep_names (dfCols : List String) (quant : String) (t : Table)
    (cond : String × List String)
    (hfresh : ∀ n ∈ [cond.1 ++ "_mean", cond.1 ++ "_deviation", cond.1 ++ "_CV"],
      n ∉ t.map Prod.fst)
    (hnd : ([cond.1 ++ "_mean", cond.1 ++ "_deviation", cond.1 ++ "_CV"]).Nodup) :
    ((statStep dfCols quant t cond).map Prod.fst) =
      t.map Prod.fst ++ [cond.1 ++ "_mean", cond.1 ++ "_deviation", cond.1 ++ "_CV"] := by
  have hm := hfresh (cond.1 ++ "_mean") (by simp)
  have hd := hfresh (cond.1 ++ "_deviation") (by simp)
  have hv := hfresh (cond.1 ++ "_CV") (by simp)
  simp only [List.nodup_cons, List.mem_cons, List.mem_singleton, not_or,
    List.not_mem_nil, List.nodup_nil, and_true, not_false_eq_true] at hnd
  obtain ⟨⟨hmd, hmv⟩, hdv⟩ := hnd
  have e1 := assignCol_names_fresh t (cond.1 ++ "_mean")
    (.meanC (selectCols dfCols cond.2 quant)) hm
  have hd2 : (cond.1 ++ "_deviation") ∉ (assignCol t (cond.1 ++ "_mean")
      (ColV.meanC (selectCols dfCols cond.2 quant))).map Prod.fst := by
    rw [e1]
    simp [hd, Ne.symm hmd]
  have e2 := assignCol_names_fresh _ (cond.1 ++ "_deviation")
    (.stdC (selectCols dfCols cond.2 quant)) hd2
  have hv2 : (cond.1 ++ "_CV") ∉ (assignCol (assignCol t (cond.1 ++ "_mean")
      (ColV.meanC (selectCols dfCols cond.2 quant))) (cond.1 ++ "_deviation")
      (ColV.stdC (selectCols dfCols cond.2 quant))).map Prod.fst := by
    rw [e2, e1]
    simp [hv, Ne.symm hmv, Ne.symm hdv]
  have e3 := assignCol_names_fresh _ (cond.1 ++ "_CV")
    (.cvC (selectCols dfCols cond.2 quant)) hv2
  simp only [statStep]
  rw [e3, e2, e1]
  simp

theorem pairStep_names (dfCols : List String) (quant : String)
    (conditions : Conditions) (t : Table) (pr : String × String)
    (hfresh : ∀ n ∈ [foldColName pr.1 pr.2, logFoldColName pr.1 pr.2],
      n ∉ t.map Prod.fst)
    (hnd : ([foldColName pr.1 pr.2, logFoldColName pr.1 pr.2]).Nodup) :
    ((pairStep dfCols quant conditions t pr).map Prod.fst) =
      t.map Prod.fst ++ [foldColName pr.1 pr.2, logFoldColName pr.1 pr.2] := by
  have hf := hfresh (foldColName pr.1 pr.2) (by simp)
  have hl := hfresh (logFoldColName pr.1 pr.2) (by simp)
  simp only [List.nodup_cons, List.mem_singleton, List.not_mem_nil,
    List.nodup_nil, and_true, not_false_eq_true] at hnd
  have e1 := assignCol_names_fresh t (foldColName pr.1 pr.2)
    (.foldC (selectCols dfCols (condLookup conditions pr.1) quant)
      (selectCols dfCols (condLookup conditions pr.2) quant)) hf
  have hl2 : (logFoldColName pr.1 pr.2) ∉ (assignCol t (foldColName pr.1 pr.2)
      (ColV.foldC (selectCols dfCols (condLookup conditions pr.1) quant)
        (selectCols dfCols (condLookup conditions pr.2) quant))).map Prod.fst := by
    rw [e1]
    simp [hl, Ne.symm hnd]
  have e2 := assignCol_names_fresh _ (logFoldColName pr.1 pr.2)
    (.log2C (.foldC (selectCols dfCols (condLookup conditions pr.1) quant)
      (selectCols dfCols (condLookup conditions pr.2) quant))) hl2
  simp only [pairStep]
  rw [e2, e1]
  simp

theorem countP_pairColNames (conditions : Conditions) :
    (pairColNames conditions).countP
        (fun n => isPrefixCB ("Fold_change: ".data) n.data)
      = (permPairs (conditions.map Prod.fst)).length := by
  unfold pairColNames
  generalize permPairs (conditions.map Prod.fst) = pairs
  induction pairs with
  | nil => simp
  | cons pr rest ih =>
    have hsplit : (((pr :: rest).map
        (fun pr => [foldColName pr.1 pr.2, logFoldColName pr.1 pr.2])).flatten)
        = [foldColName pr.1 pr.2, logFoldColName pr.1 pr.2] ++
          ((rest.map (fun pr => [foldColName pr.1 pr.2, logFoldColName pr.1 pr.2])).flatten) := by
      simp
    rw [hsplit, List.countP_append, ih,
      List.countP_cons_of_pos _ _ (by simpa using isFoldName_foldColName pr.1 pr.2),
      List.countP_cons_of_neg _ _
        (by simpa using isFoldName_logFoldColName pr.1 pr.2),
      List.countP_nil]
    simp [Nat.add_comm]

/-- C8 (amended): provided the statistic and fold-change column names are
pairwise distinct and fresh — which holds whenever no condition name
contains a slash — general_conditions appends exactly the per-condition
statistic columns followed by the ordered-pair fold-change and log2 columns,
and the number of fold-change-named columns it adds is exactly
k·(k−1) for k configured conditions; for k = 1 it adds none. -/
theorem general_conditions_fold_change_column_count
    (dfCols : List String) (quant : String) (conditions : Conditions)
    (annot : Table)
    (hne : conditions ≠ [])
    (hndc : (conditions.map Prod.fst).Nodup)
    (hnd : (statColNames conditions ++ pairColNames conditions).Nodup)
    (hfresh : ∀ n ∈ statColNames conditions ++ pairColNames conditions,
      n ∉ annot.map Prod.fst)
    (hstat : ∀ n ∈ statColNames conditions,
      isPrefixCB ("Fold_change: ".data) n.data = false) :
    ((general_conditions dfCols quant conditions annot).map Prod.fst) =
        annot.map Prod.fst ++ statColNames conditions ++ pairColNames conditions ∧
    ((general_conditions dfCols quant conditions annot).map Prod.fst).countP
        (fun n => isPrefixCB ("Fold_change: ".data) n.data) =
      (annot.map Prod.fst).countP (fun n => isPrefixCB ("Fold_change: ".data) n.data)
        + conditions.length * (conditions.length - 1) := by
  rw [List.nodup_append] at hnd
  obtain ⟨hndS, hndP, hdisj⟩ := hnd
  have hCond : (if conditions.isEmpty then defaultConditions else conditions)
      = conditions := by
    rw [if_neg (by simpa using hne)]
  have hstats := foldl_names_of_steps (statStep dfCols quant)
    (fun c => [c.1 ++ "_mean", c.1 ++ "_deviation", c.1 ++ "_CV"])
    (fun t a hf hn => statStep_names dfCols quant t a hf hn)
    conditions annot
    (fun n hn => hfresh n (List.mem_append_left _ hn))
    hndS
  have hnames : ((general_conditions dfCols quant conditions annot).map Prod.fst)
      = annot.map Prod.fst ++ statColNames conditions ++ pairColNames conditions := by
    simp only [general_conditions, hCond]
    by_cases hlen : 1 < conditions.length
    · rw [if_pos hlen]
      have hpairs := foldl_names_of_steps (pairStep dfCols quant conditions)
        (fun pr => [foldColName pr.1 pr.2, logFoldColName pr.1 pr.2])
        (fun t a hf hn => pairStep_names dfCols quant conditions t a hf hn)
        (permPairs (conditions.map Prod.fst))
        (conditions.foldl (statStep dfCols quant) annot)
        (fun n hn => by
          rw [hstats]
          intro hmem
          rcases List.mem_append.mp hmem with h | h
          · exact hfresh n (List.mem_append_right _ hn) h
          · exact hdisj h hn)
        hndP
      rw [hpairs, hstats]
      simp only [statColNames, pairColNames, List.append_assoc]
    · rw [if_neg hlen]
      have hpnil : pairColNames conditions = [] := by
        match conditions, hne, hlen with
        | [c], _, _ => simp [pairColNames, permPairs, permPairsAux]
        | c1 :: c2 :: rest, _, hlen =>
          exact absurd (show 1 < (c1 :: c2 :: rest).length by simp) hlen
      rw [hstats, hpnil]
      simp [statColNames]
  refine ⟨hnames, ?_⟩
  rw [hnames, List.append_assoc, List.countP_append, List.countP_append]
  have hzero : (statColNames conditions).countP
      (fun n => isPrefixCB ("Fold_change: ".data) n.data) = 0 := by
    rw [List.countP_eq_zero]
    intro n hn
    simp [hstat n hn]
  rw [hzero, countP_pairColNames,
    permPairs_length (conditions.map Prod.fst) hndc]
  simp

/-- Witness for C8's amended theorem with three slash-free conditions: the
hypotheses hold and 3 · 2 = 6 fold-change columns are counted. -/
theorem general_conditions_fold_change_column_count_witness :
    ((general_conditions [] "Q" [("x", []), ("y", []), ("z", [])]
        [("q", ColV.lit [])]).map Prod.fst) =
        [("q", ColV.lit [])].map Prod.fst ++
          statColNames [("x", []), ("y", []), ("z", [])] ++
          pairColNames [("x", []), ("y", []), ("z", [])] ∧
    ((general_conditions [] "Q" [("x", []), ("y", []), ("z", [])]
        [("q", ColV.lit [])]).map Prod.fst).countP
        (fun n => isPrefixCB ("Fold_change: ".data) n.data) =
      ([("q", ColV.lit [])].map Prod.fst).countP
        (fun n => isPrefixCB ("Fold_change: ".data) n.data) + 3 * (3 - 1) :=
  general_conditions_fold_change_column_count [] "Q"
    [("x", []), ("y", []), ("z", [])] [("q", ColV.lit [])]
    (by decide) (by decide) (by decide) (by decide) (by decide)

/-- C8 (counterexample): four legal conditions whose names contain slashes
— a/b, c, a, b/c — produce the colliding column name
"Fold_change: a/b/c" for the two distinct ordered pairs (a/b, c) and
(a, b/c); the second assignment overwrites the first, so only 11
fold-change columns exist instead of k·(k−1) = 12. -/
theorem general_conditions_fold_change_name_collision :
    ([("a/b", []), ("c", []), ("a", []), ("b/c", [])] : Conditions).length = 4 ∧
    ((general_conditions [] "Q"
        [("a/b", []), ("c", []), ("a", []), ("b/c", [])] []).map Prod.fst).countP
        (fun n => isPrefixCB ("Fold_change: ".data) n.data) = 11 ∧
    (11 : Nat) ≠ 4 * (4 - 1) := by
  refine ⟨rfl, ?_, by decide⟩
  decide

end Clipper
